import Mathlib

/-!
Shallow embedding of `src/filter_dd_keys.py`, a content-scrubbing callback for a
history-rewriting framework.  Strings are modelled as `List Char`, byte buffers
as `List Nat` (each element a byte value).  The `re` patterns used by the
repository are embedded as a small regex language with the backtracking
priority order of the Python engine (leftmost match, first-alternative, greedy
star); `re.IGNORECASE` is modelled by ASCII case folding, which is exact for
the ASCII patterns appearing here.  Lossy decoding, `bytes.decode` with
`errors=replace`, is modelled byte-for-byte after CPython, one U+FFFD per maximal
subpart of an ill-formed sequence.  The pattern file `dd-keys-pattern.txt` is
not part of the repository, so every statement is parameterised by the loaded
pattern list.
-/

namespace DDFilter

/-- Does `needle` occur at the very start of the second list? -/
def startsWithL : List Char → List Char → Bool
  | [], _ => true
  | _ :: _, [] => false
  | a :: as, b :: bs => a == b && startsWithL as bs

/-- Does `needle` occur as a contiguous sublist (substring) of the second list? -/
def containsSub (needle : List Char) : List Char → Bool
  | [] => startsWithL needle []
  | c :: rest => startsWithL needle (c :: rest) || containsSub needle rest

/-- The regex sublanguage needed for this repository: literals (matched
case-insensitively, modelling `re.IGNORECASE`), the `\d` class, concatenation,
alternation and Kleene star (`x+` is compiled to `seq x (star x)`). -/
inductive Regex where
  | eps : Regex
  | lit : Char → Regex
  | digit : Regex
  | seq : Regex → Regex → Regex
  | alt : Regex → Regex → Regex
  | star : Regex → Regex
deriving DecidableEq

/-- Candidate remainders after matching `r` at the head of `s`, in the priority
order of a backtracking engine (Python `re`): a literal or class consumes one
character, `seq` tries continuations in order, `alt` prefers its left branch,
`star` is greedy and never repeats an empty iteration.  `fuel` bounds the
recursion depth; `cands` below supplies enough fuel for the bound never to be
hit. -/
def candsF : Nat → Regex → List Char → List (List Char)
  | 0, _, _ => []
  | _ + 1, Regex.eps, s => [s]
  | _ + 1, Regex.lit _, [] => []
  | _ + 1, Regex.lit c, d :: rest => if c.toLower == d.toLower then [rest] else []
  | _ + 1, Regex.digit, [] => []
  | _ + 1, Regex.digit, d :: rest => if d.isDigit then [rest] else []
  | fuel + 1, Regex.seq a b, s => (candsF fuel a s).flatMap (candsF fuel b)
  | fuel + 1, Regex.alt a b, s => candsF fuel a s ++ candsF fuel b s
  | fuel + 1, Regex.star a, s =>
      ((candsF fuel a s).filter (fun t => decide (t.length < s.length))).flatMap
        (candsF fuel (Regex.star a)) ++ [s]

/-- Size of a regex term, used to compute an adequate fuel bound. -/
def reSize : Regex → Nat
  | Regex.eps => 1
  | Regex.lit _ => 1
  | Regex.digit => 1
  | Regex.seq a b => reSize a + reSize b + 1
  | Regex.alt a b => reSize a + reSize b + 1
  | Regex.star a => reSize a + 1

/-- All candidate remainders of matching `r` at the head of `s`, in
backtracking priority order.  The fuel `(reSize r + 2) * (s.length + 2)`
dominates the recursion depth: every nesting level either descends into a
strict subterm of `r` or (for `star`) strictly shortens `s`. -/
def cands (r : Regex) (s : List Char) : List (List Char) :=
  candsF ((reSize r + 2) * (s.length + 2)) r s

/-- Length of the match the engine reports for `r` at the start of `s`
(the highest-priority candidate), or `none` when `r` does not match there.
This is what a `pattern.match`-style probe of Python at one position yields. -/
def matchLen (r : Regex) (s : List Char) : Option Nat :=
  (cands r s).head?.map (fun t => s.length - t.length)

/-- The literal replacement text `[REMOVED_DD_KEY]` of `filter_dd_keys.py`. -/
def MARKER : List Char := "[REMOVED_DD_KEY]".data

/-- Fueled core of `pattern.sub(repl, s)`: scan left to right; at each position
either no match (copy one character), an empty match (emit `repl`, copy one
character — Python 3.7+ semantics for zero-width matches), or a non-empty match
of length `n + 1` (emit `repl`, resume after the matched span).  A trailing
empty match at the end of the string is also replaced. -/
def subF (m : List Char → Option Nat) (repl : List Char) : Nat → List Char → List Char
  | _, [] =>
      match m [] with
      | some _ => repl
      | none => []
  | 0, s => s
  | fuel + 1, c :: rest =>
      match m (c :: rest) with
      | none => c :: subF m repl fuel rest
      | some 0 => repl ++ c :: subF m repl fuel rest
      | some (n + 1) => repl ++ subF m repl fuel (rest.drop n)

/-- Model of `pattern.sub(repl, s)` with all matches replaced (`count = 0`). -/
def sub (m : List Char → Option Nat) (repl : List Char) (s : List Char) : List Char :=
  subF m repl s.length s

/-- Does the matcher `m` match at some position of `s` (Python `re.search`)? -/
def hasMatch (m : List Char → Option Nat) : List Char → Bool
  | [] => (m []).isSome
  | c :: rest => (m (c :: rest)).isSome || hasMatch m rest

/-- Does some pattern of the list match somewhere in `s`? -/
def anyMatch (patterns : List Regex) (s : List Char) : Bool :=
  patterns.any (fun p => hasMatch (matchLen p) s)

/-- Function `clean_message` of `filter_dd_keys.py`: fold the patterns in load order,
each substitution feeding the next. -/
def clean_message (patterns : List Regex) (message : List Char) : List Char :=
  patterns.foldl (fun cur p => sub (matchLen p) MARKER cur) message

/-- Function `clean_content` of `filter_dd_keys.py`: textually the same loop as
`clean_message`. -/
def clean_content (patterns : List Regex) (content : List Char) : List Char :=
  patterns.foldl (fun cur p => sub (matchLen p) MARKER cur) content

/-- Is `b` a UTF-8 continuation byte (`0x80`–`0xBF`)? -/
def contB (b : Nat) : Bool := decide (0x80 ≤ b ∧ b ≤ 0xBF)

/-- Lower bound for the second byte of a three-byte sequence (excludes
overlong encodings after `0xE0`). -/
def lo3 (b : Nat) : Nat := if b = 0xE0 then 0xA0 else 0x80

/-- Upper bound for the second byte of a three-byte sequence (excludes
surrogates after `0xED`). -/
def hi3 (b : Nat) : Nat := if b = 0xED then 0x9F else 0xBF

/-- Lower bound for the second byte of a four-byte sequence (excludes
overlong encodings after `0xF0`). -/
def lo4 (b : Nat) : Nat := if b = 0xF0 then 0x90 else 0x80

/-- Upper bound for the second byte of a four-byte sequence (excludes
code points above U+10FFFF after `0xF4`). -/
def hi4 (b : Nat) : Nat := if b = 0xF4 then 0x8F else 0xBF

/-- One step of the CPython UTF-8 decoder at lead byte `b` with remaining input
`rest`: returns the decoded scalar (or `none` for an ill-formed maximal
subpart) and how many bytes of `rest` belong to this step.  A valid prefix of
a truncated or broken multi-byte sequence is consumed as a single subpart,
exactly as the CPython `errors=replace` handler does. -/
def utf8Step (b : Nat) (rest : List Nat) : Option Char × Nat :=
  if b < 0x80 then (some (Char.ofNat b), 0)
  else if b < 0xC2 then (none, 0)
  else if b < 0xE0 then
    match rest with
    | [] => (none, 0)
    | b2 :: _ =>
        if contB b2 then (some (Char.ofNat ((b - 0xC0) * 0x40 + (b2 - 0x80))), 1)
        else (none, 0)
  else if b < 0xF0 then
    match rest with
    | [] => (none, 0)
    | b2 :: rest2 =>
        if decide (lo3 b ≤ b2 ∧ b2 ≤ hi3 b) then
          match rest2 with
          | [] => (none, 1)
          | b3 :: _ =>
              if contB b3 then
                (some (Char.ofNat ((b - 0xE0) * 0x1000 + (b2 - 0x80) * 0x40 + (b3 - 0x80))), 2)
              else (none, 1)
        else (none, 0)
  else if b < 0xF5 then
    match rest with
    | [] => (none, 0)
    | b2 :: rest2 =>
        if decide (lo4 b ≤ b2 ∧ b2 ≤ hi4 b) then
          match rest2 with
          | [] => (none, 1)
          | b3 :: rest3 =>
              if contB b3 then
                match rest3 with
                | [] => (none, 2)
                | b4 :: _ =>
                    if contB b4 then
                      (some (Char.ofNat ((b - 0xF0) * 0x40000 + (b2 - 0x80) * 0x1000 +
                        (b3 - 0x80) * 0x40 + (b4 - 0x80))), 3)
                    else (none, 2)
              else (none, 1)
        else (none, 0)
  else (none, 0)

/-- The Unicode replacement character U+FFFD substituted for each ill-formed
maximal subpart by `errors=replace`. -/
def replChar : Char := Char.ofNat 0xFFFD

/-- Fueled decoder: `bytes.decode` for utf-8 with `errors=replace`. -/
def decodeReplaceF : Nat → List Nat → List Char
  | _, [] => []
  | 0, _ => []
  | fuel + 1, b :: rest =>
      (utf8Step b rest).1.getD replChar :: decodeReplaceF fuel (rest.drop (utf8Step b rest).2)

/-- Lossy utf-8 decoding, `errors=replace`, of the byte list `l`.  The fuel
`l.length` is adequate because every step consumes at least the lead byte. -/
def decodeReplace (l : List Nat) : List Char := decodeReplaceF l.length l

/-- Fueled strict UTF-8 validity check (same scan as the decoder). -/
def validUtf8F : Nat → List Nat → Bool
  | _, [] => true
  | 0, _ => false
  | fuel + 1, b :: rest =>
      (utf8Step b rest).1.isSome && validUtf8F fuel (rest.drop (utf8Step b rest).2)

/-- Is `l` well-formed UTF-8 (i.e. would strict `bytes.decode` succeed)? -/
def validUtf8 (l : List Nat) : Bool := validUtf8F l.length l

/-- UTF-8 encoding of one scalar value (`str.encode`, per character). -/
def encodeChar (c : Char) : List Nat :=
  let n := c.toNat
  if n < 0x80 then [n]
  else if n < 0x800 then [0xC0 + n / 0x40, 0x80 + n % 0x40]
  else if n < 0x10000 then [0xE0 + n / 0x1000, 0x80 + n / 0x40 % 0x40, 0x80 + n % 0x40]
  else [0xF0 + n / 0x40000, 0x80 + n / 0x1000 % 0x40, 0x80 + n / 0x40 % 0x40, 0x80 + n % 0x40]

/-- Model of `str.encode` for utf-8 on a decoded text. -/
def encodeUtf8 : List Char → List Nat
  | [] => []
  | c :: rest => encodeChar c ++ encodeUtf8 rest

/-- Function `callback(blob, data)` of `filter_dd_keys.py`, with the blob byte buffer
passed in and the resulting buffer returned alongside the boolean result:
decode lossily, scrub, write back only if the text changed, return `True`.
The `data` argument is accepted and ignored, as in the source. -/
def callback {α : Type} (patterns : List Regex) (blobData : List Nat) (data : α) :
    List Nat × Bool :=
  let content := decodeReplace blobData
  let cleaned := clean_content patterns content
  if cleaned ≠ content then (encodeUtf8 cleaned, true) else (blobData, true)

/-- Compile one pattern line into the regex sublanguage, mirroring
`re.compile(line, re.IGNORECASE)` on the fragment of Python regex syntax this
patterns of this repository use: plain literal characters, escaped punctuation,
`\d`, and the postfix repetitions `+` and `*`.  Lines using constructs outside
the modelled fragment yield `none`.  `acc` holds the atoms parsed so far in
reverse order. -/
def parseAux : List Char → List Regex → Option (List Regex)
  | [], acc => some acc
  | '\\' :: c :: rest, acc =>
      if c = 'd' then parseAux rest (Regex.digit :: acc)
      else if c.isAlphanum then none
      else parseAux rest (Regex.lit c :: acc)
  | ['\\'], _ => none
  | '+' :: rest, acc =>
      match acc with
      | a :: acc2 => parseAux rest (Regex.seq a (Regex.star a) :: acc2)
      | [] => none
  | '*' :: rest, acc =>
      match acc with
      | a :: acc2 => parseAux rest (Regex.star a :: acc2)
      | [] => none
  | c :: rest, acc =>
      if c.isAlphanum || c = ' ' || c = '=' || c = '_' || c = ']' then
        parseAux rest (Regex.lit c :: acc)
      else none

/-- Model of `re.compile(src, re.IGNORECASE)` on the modelled syntax fragment. -/
def compile (src : List Char) : Option Regex :=
  (parseAux src []).map (fun acc => acc.reverse.foldr Regex.seq Regex.eps)

/-- ASCII-range whitespace stripped by the Python `str.strip()`. -/
def isPyWs (c : Char) : Bool :=
  c == ' ' || c == '\t' || c == '\n' || c == '\r' || c == '\x0b' || c == '\x0c' ||
  c == '\x1c' || c == '\x1d' || c == '\x1e' || c == '\x1f' || c == '\x85'

/-- Model of `line.strip()`: drop leading and trailing whitespace. -/
def stripChars (s : List Char) : List Char :=
  ((s.dropWhile isPyWs).reverse.dropWhile isPyWs).reverse

/-- Split file content into lines at newline characters, as iterating over the
file object does (the trailing newline each iteration yields is immaterial
because every line is stripped before use). -/
def splitLines : List Char → List (List Char)
  | [] => [[]]
  | c :: rest =>
      if c = '\n' then [] :: splitLines rest
      else
        match splitLines rest with
        | l :: ls => (c :: l) :: ls
        | [] => [[c]]

/-- The loader loop of `filter_dd_keys.py` up to compilation: strip each line,
keep the lines that are non-empty and do not start with `#`, in file order. -/
def loadPatternLines (content : List Char) : List (List Char) :=
  ((splitLines content).map stripChars).filter
    (fun l => !l.isEmpty && !startsWithL ['#'] l)

/-- The full loader: compile every kept line, in file order.  `none` models the
uncaught `re.error` on an invalid pattern line. -/
def loadPatterns (content : List Char) : Option (List Regex) :=
  (loadPatternLines content).mapM compile

/-- The regex matching a fixed word literally (and case-insensitively), the
compilation result of a pattern line consisting of plain characters. -/
def litSeq : List Char → Regex
  | [] => Regex.eps
  | c :: rest => Regex.seq (Regex.lit c) (litSeq rest)

/-- Compilation result of the pattern line `foo`. -/
def fooRe : Regex := litSeq "foo".data

/-- Compilation result of the pattern line `bar`. -/
def barRe : Regex := litSeq "bar".data

/-- Compilation result of the pattern line `k`. -/
def kRe : Regex := litSeq "k".data

/-- Compilation result of the pattern line `\]x`. -/
def brxRe : Regex := litSeq "]x".data

/-- Compilation result of the pattern line `\[REMOVED_DD_KEY\]`, a pattern
matching exactly the redaction marker text. -/
def markerRe : Regex := litSeq MARKER

/-- Compilation result of the pattern line `foo\d+`. -/
def fooDigitsRe : Regex :=
  Regex.seq (Regex.lit 'f') (Regex.seq (Regex.lit 'o') (Regex.seq (Regex.lit 'o')
    (Regex.seq (Regex.seq Regex.digit (Regex.star Regex.digit)) Regex.eps)))

/-- A blob buffer holding the marker text followed by one ill-formed byte. -/
def c10bytes : List Nat := encodeUtf8 MARKER ++ [255]

theorem startsWithL_append (l t : List Char) : startsWithL l (l ++ t) = true := by
  induction l with
  | nil => rfl
  | cons a as ih => simp [startsWithL, ih]

theorem containsSub_of_startsWithL {needle s : List Char} (h : startsWithL needle s = true) :
    containsSub needle s = true := by
  cases s with
  | nil => simpa [containsSub] using h
  | cons c rest => simp [containsSub, h]

theorem containsSub_cons (needle : List Char) (c : Char) {rest : List Char}
    (h : containsSub needle rest = true) : containsSub needle (c :: rest) = true := by
  simp [containsSub, h]

theorem containsSub_append_self (l t : List Char) : containsSub l (l ++ t) = true :=
  containsSub_of_startsWithL (startsWithL_append l t)

/-- A substitution in which the matcher matches nowhere is the identity. -/
theorem subF_eq_of_no_match (m : List Char → Option Nat) (repl : List Char) :
    ∀ fuel s, s.length ≤ fuel → hasMatch m s = false → subF m repl fuel s = s := by
  intro fuel
  induction fuel with
  | zero =>
      intro s hs h
      cases s with
      | nil =>
          cases hm : m [] with
          | none => simp [subF, hm]
          | some k => simp [hasMatch, hm] at h
      | cons c rest => simp at hs
  | succ fuel ih =>
      intro s hs h
      cases s with
      | nil =>
          cases hm : m [] with
          | none => simp [subF, hm]
          | some k => simp [hasMatch, hm] at h
      | cons c rest =>
          cases hm : m (c :: rest) with
          | some k => simp [hasMatch, hm] at h
          | none =>
              simp only [hasMatch, hm, Option.isSome_none, Bool.false_or] at h
              have hr : rest.length ≤ fuel := by
                simp only [List.length_cons] at hs
                omega
              simp only [subF, hm]
              rw [ih rest hr h]

/-- A substitution in which the matcher matches somewhere puts the replacement
text into the result. -/
theorem subF_contains_of_hasMatch (m : List Char → Option Nat) (repl : List Char) :
    ∀ fuel s, s.length ≤ fuel → hasMatch m s = true →
      containsSub repl (subF m repl fuel s) = true := by
  intro fuel
  induction fuel with
  | zero =>
      intro s hs h
      cases s with
      | nil =>
          cases hm : m [] with
          | none => simp [hasMatch, hm] at h
          | some k =>
              have he : subF m repl 0 [] = repl := by simp [subF, hm]
              rw [he]
              simpa using containsSub_append_self repl []
      | cons c rest => simp at hs
  | succ fuel ih =>
      intro s hs h
      cases s with
      | nil =>
          cases hm : m [] with
          | none => simp [hasMatch, hm] at h
          | some k =>
              have he : subF m repl (fuel + 1) [] = repl := by simp [subF, hm]
              rw [he]
              simpa using containsSub_append_self repl []
      | cons c rest =>
          cases hm : m (c :: rest) with
          | some n =>
              cases n with
              | zero =>
                  simp only [subF, hm]
                  exact containsSub_append_self repl (c :: subF m repl fuel rest)
              | succ k =>
                  simp only [subF, hm]
                  exact containsSub_append_self repl (subF m repl fuel (rest.drop k))
          | none =>
              simp only [hasMatch, hm, Option.isSome_none, Bool.false_or] at h
              have hr : rest.length ≤ fuel := by
                simp only [List.length_cons] at hs
                omega
              simp only [subF, hm]
              exact containsSub_cons repl c (ih rest hr h)

theorem sub_eq_of_no_match (m : List Char → Option Nat) (repl : List Char) (s : List Char)
    (h : hasMatch m s = false) : sub m repl s = s :=
  subF_eq_of_no_match m repl s.length s (Nat.le_refl _) h

/-- Scrubbing with a pattern list none of whose members matches anywhere is the
identity. -/
theorem clean_content_of_no_match :
    ∀ (P : List Regex) (s : List Char), anyMatch P s = false → clean_content P s = s := by
  intro P
  induction P with
  | nil => intro s _; rfl
  | cons p P ih =>
      intro s h
      simp only [anyMatch, List.any_cons, Bool.or_eq_false_iff] at h
      show clean_content P (sub (matchLen p) MARKER s) = s
      rw [sub_eq_of_no_match _ _ _ h.1]
      exact ih s h.2

/-- If some pattern of the list matches the input, the scrubbed output contains
the redaction marker: the first pattern (in load order) matching the current
text fires and inserts the marker, and every later pattern either leaves the
text unchanged or inserts a fresh marker of its own. -/
theorem clean_content_contains_marker :
    ∀ (P : List Regex) (s : List Char), anyMatch P s = true →
      containsSub MARKER (clean_content P s) = true := by
  intro P
  induction P with
  | nil => intro s h; simp [anyMatch] at h
  | cons p P ih =>
      intro s h
      by_cases hp : hasMatch (matchLen p) s = true
      · have h1 : containsSub MARKER (sub (matchLen p) MARKER s) = true :=
          subF_contains_of_hasMatch _ _ s.length s (Nat.le_refl _) hp
        show containsSub MARKER (clean_content P (sub (matchLen p) MARKER s)) = true
        by_cases hP : anyMatch P (sub (matchLen p) MARKER s) = true
        · exact ih _ hP
        · rw [clean_content_of_no_match P _ (by simpa using hP)]
          exact h1
      · have hp2 : hasMatch (matchLen p) s = false := by simpa using hp
        have hP : anyMatch P s = true := by
          simp only [anyMatch, List.any_cons, hp2, Bool.false_or] at h
          exact h
        show containsSub MARKER (clean_content P (sub (matchLen p) MARKER s)) = true
        rw [sub_eq_of_no_match _ _ _ hp2]
        exact ih s hP

theorem callback_snd {α : Type} (P : List Regex) (b : List Nat) (d : α) :
    (callback P b d).2 = true := by
  simp only [callback]
  split <;> rfl

theorem callback_fst_of_changed {α : Type} (P : List Regex) (b : List Nat) (d : α)
    (h : clean_content P (decodeReplace b) ≠ decodeReplace b) :
    (callback P b d).1 = encodeUtf8 (clean_content P (decodeReplace b)) := by
  simp only [callback]
  simp [h]

theorem callback_eq_of_unchanged {α : Type} (P : List Regex) (b : List Nat) (d : α)
    (h : clean_content P (decodeReplace b) = decodeReplace b) :
    callback P b d = (b, true) := by
  simp only [callback]
  simp [h]

/-- If a byte list fails strict UTF-8 validation, lossy decoding puts at least
one replacement character into the decoded text (the two scans consume the
input in the same steps). -/
theorem replChar_mem_decodeF :
    ∀ (fuel : Nat) (l : List Nat), l.length ≤ fuel → validUtf8F fuel l = false →
      replChar ∈ decodeReplaceF fuel l := by
  intro fuel
  induction fuel with
  | zero =>
      intro l hl h
      cases l with
      | nil => simp [validUtf8F] at h
      | cons b rest => simp at hl
  | succ fuel ih =>
      intro l hl h
      cases l with
      | nil => simp [validUtf8F] at h
      | cons b rest =>
          cases ho : (utf8Step b rest).1 with
          | none => simp [decodeReplaceF, ho]
          | some c =>
              have hv : validUtf8F fuel (rest.drop (utf8Step b rest).2) = false := by
                simp only [validUtf8F, ho, Option.isSome_some, Bool.true_and] at h
                exact h
              have hr : (rest.drop (utf8Step b rest).2).length ≤ fuel := by
                have h1 : (rest.drop (utf8Step b rest).2).length =
                    rest.length - (utf8Step b rest).2 := List.length_drop _ _
                simp only [List.length_cons] at hl
                omega
              simp only [decodeReplaceF, ho, Option.getD_some]
              exact List.mem_cons_of_mem _ (ih _ hr hv)

theorem replChar_mem_decode (l : List Nat) (h : validUtf8 l = false) :
    replChar ∈ decodeReplace l :=
  replChar_mem_decodeF l.length l (Nat.le_refl _) h

/-- C1 (amended): for every pattern list and every blob whose lossily decoded
content contains at least one pattern match, the scrubbed text contains the
redaction marker (each firing substitution puts the marker in place of its
matches), the callback returns true, and whenever scrubbing changed the text
the resulting buffer is the UTF-8 encoding of the scrubbed text.  The original
clause of the claim that no substring matching a loaded pattern remains in the
result is dropped: a pattern may match the marker text itself. -/
theorem c1_amended {α : Type} (P : List Regex) (b : List Nat) (d : α)
    (h : anyMatch P (decodeReplace b) = true) :
    containsSub MARKER (clean_content P (decodeReplace b)) = true ∧
    (callback P b d).2 = true ∧
    (clean_content P (decodeReplace b) ≠ decodeReplace b →
      (callback P b d).1 = encodeUtf8 (clean_content P (decodeReplace b))) :=
  ⟨clean_content_contains_marker P _ h, callback_snd P b d,
    fun hne => callback_fst_of_changed P b d hne⟩

/-- C1 counterexample: with the loaded pattern `k` and blob content `k`
(byte 107), the decoded content matches, yet after the callback the buffer —
now the marker text — still contains a substring matched by the
case-insensitive pattern, namely the `K` inside `[REMOVED_DD_KEY]`. -/
theorem c1_counterexample :
    compile "k".data = some kRe ∧
    anyMatch [kRe] (decodeReplace [107]) = true ∧
    anyMatch [kRe] (decodeReplace (callback [kRe] [107] ()).1) = true := by
  decide

/-- C1 witness: pattern `foo` on blob content `foo`. -/
theorem c1_witness :
    anyMatch [fooRe] (decodeReplace [102, 111, 111]) = true ∧
    (containsSub MARKER (clean_content [fooRe] (decodeReplace [102, 111, 111])) = true ∧
      (callback [fooRe] [102, 111, 111] ()).2 = true ∧
      (clean_content [fooRe] (decodeReplace [102, 111, 111]) ≠ decodeReplace [102, 111, 111] →
        (callback [fooRe] [102, 111, 111] ()).1 =
          encodeUtf8 (clean_content [fooRe] (decodeReplace [102, 111, 111])))) :=
  ⟨by decide, c1_amended [fooRe] [102, 111, 111] () (by decide)⟩

/-- C2 (amended): scrubbing is idempotent whenever no pattern of the list
matches anywhere in the once-scrubbed text.  The stated proviso — that no
pattern matches the literal redaction marker — is not sufficient, because a
pattern may match text spanning the boundary between an inserted marker and
the adjacent remaining text (see the counterexample). -/
theorem c2_amended (P : List Regex) (T : List Char)
    (h : anyMatch P (clean_content P T) = false) :
    clean_content P (clean_content P T) = clean_content P T :=
  clean_content_of_no_match P _ h

/-- C2 counterexample: the pattern `\]x` does not match anywhere inside the
literal marker `[REMOVED_DD_KEY]`, yet on input `]xx` a second scrub run
changes the text again: the first run yields `[REMOVED_DD_KEY]x`, whose final
`]x` straddles the marker boundary and is matched by the second run. -/
theorem c2_counterexample :
    compile "\\]x".data = some brxRe ∧
    hasMatch (matchLen brxRe) MARKER = false ∧
    clean_content [brxRe] (clean_content [brxRe] "]xx".data) ≠
      clean_content [brxRe] "]xx".data := by
  decide

/-- C2 witness: pattern `foo` on text `foo`. -/
theorem c2_witness :
    anyMatch [fooRe] (clean_content [fooRe] "foo".data) = false ∧
    clean_content [fooRe] (clean_content [fooRe] "foo".data) =
      clean_content [fooRe] "foo".data :=
  ⟨by decide, c2_amended [fooRe] "foo".data (by decide)⟩

/-- C3: when no loaded pattern matches the decoded content, the callback
leaves the byte buffer byte-identical and returns true. -/
theorem c3_unchanged {α : Type} (P : List Regex) (b : List Nat) (d : α)
    (h : anyMatch P (decodeReplace b) = false) :
    callback P b d = (b, true) :=
  callback_eq_of_unchanged P b d (clean_content_of_no_match P _ h)

/-- C3 witness: pattern `foo` on blob content `b` (byte 98). -/
theorem c3_witness :
    anyMatch [fooRe] (decodeReplace [98]) = false ∧
    callback [fooRe] [98] () = ([98], true) :=
  ⟨by decide, c3_unchanged [fooRe] [98] () (by decide)⟩

/-- C4: the callback returns true for every pattern list, every blob buffer
and every `data` argument, whether or not the content changed. -/
theorem c4_returns_true {α : Type} (P : List Regex) (b : List Nat) (d : α) :
    (callback P b d).2 = true :=
  callback_snd P b d

/-- C5: on a blob buffer that is not valid UTF-8 the callback does not fail —
in the embedding it is a total function — the lossy decode puts the
substitution character U+FFFD into the decoded text, and the callback returns
true. -/
theorem c5_lossy_decode {α : Type} (P : List Regex) (b : List Nat) (d : α)
    (h : validUtf8 b = false) :
    replChar ∈ decodeReplace b ∧ (callback P b d).2 = true :=
  ⟨replChar_mem_decode b h, callback_snd P b d⟩

/-- C5 witness: the single byte 255 is not valid UTF-8. -/
theorem c5_witness :
    validUtf8 [255] = false ∧
    (replChar ∈ decodeReplace [255] ∧ (callback ([] : List Regex) [255] ()).2 = true) :=
  ⟨by decide, c5_lossy_decode [] [255] () (by decide)⟩

/-- C6: on the pattern-file content `foo\n# comment\n\nbar` the loader keeps
exactly the stripped lines `foo` and `bar`, in file order — the comment line
and the blank line are skipped — and compiles them; case-insensitive
compilation is exhibited by the compiled `foo` matching `FOO`. -/
theorem c6_loader :
    loadPatternLines "foo\n# comment\n\nbar".data = ["foo".data, "bar".data] ∧
    loadPatterns "foo\n# comment\n\nbar".data = some [fooRe, barRe] ∧
    matchLen fooRe "FOO".data = some 3 := by
  decide

/-- C7: scrubbing `key=FOO123` with the single case-insensitively compiled
pattern `foo\d+` yields exactly `key=[REMOVED_DD_KEY]`; in general the
scrubber applies the patterns in load order, the output of each substitution
feeding the next pattern. -/
theorem c7_scrub_example :
    compile "foo\\d+".data = some fooDigitsRe ∧
    clean_content [fooDigitsRe] "key=FOO123".data = "key=[REMOVED_DD_KEY]".data ∧
    ∀ (p : Regex) (P : List Regex) (s : List Char),
      clean_content (p :: P) s = clean_content P (sub (matchLen p) MARKER s) :=
  ⟨by decide, by decide, fun _ _ _ => rfl⟩

/-- C8: `clean_message` and `clean_content` are extensionally equal — their
bodies are the same fold. -/
theorem c8_clean_message_eq_clean_content (P : List Regex) (s : List Char) :
    clean_message P s = clean_content P s := rfl

/-- C9: the callback result — returned boolean and resulting buffer — does
not depend on the `data` argument, which may even have a different type in the
two runs. -/
theorem c9_data_noninterference {α β : Type} (P : List Regex) (b : List Nat)
    (d1 : α) (d2 : β) : callback P b d1 = callback P b d2 := rfl

/-- C10 (amended): for a blob whose buffer is not valid UTF-8, whose decoded
text contains a pattern match, and for which scrubbing actually changes the
decoded text — the condition under which the source writes the buffer — the
resulting buffer is the UTF-8 encoding of the decoded-then-scrubbed text, so
ill-formed byte sequences are not preserved.  The original claim omitted the
third condition; without it the buffer may be left untouched. -/
theorem c10_amended {α : Type} (P : List Regex) (b : List Nat) (d : α)
    (h1 : validUtf8 b = false) (h2 : anyMatch P (decodeReplace b) = true)
    (h3 : clean_content P (decodeReplace b) ≠ decodeReplace b) :
    (callback P b d).1 = encodeUtf8 (clean_content P (decodeReplace b)) := by
  clear h1 h2
  exact callback_fst_of_changed P b d h3

/-- C10 counterexample: the loaded pattern `\[REMOVED_DD_KEY\]` matches the
decoded content of the buffer `[REMOVED_DD_KEY]` followed by the ill-formed
byte 255, but substituting the marker for the match reproduces the text
unchanged, so the callback writes nothing and the final buffer is not the
UTF-8 encoding of the decoded-then-scrubbed text — the byte 255 survives. -/
theorem c10_counterexample :
    compile "\\[REMOVED_DD_KEY\\]".data = some markerRe ∧
    validUtf8 c10bytes = false ∧
    anyMatch [markerRe] (decodeReplace c10bytes) = true ∧
    (callback [markerRe] c10bytes ()).1 ≠
      encodeUtf8 (clean_content [markerRe] (decodeReplace c10bytes)) := by
  decide

/-- C10 witness: pattern `foo` on the buffer `foo` followed by byte 255. -/
theorem c10_witness :
    (validUtf8 [102, 111, 111, 255] = false ∧
      anyMatch [fooRe] (decodeReplace [102, 111, 111, 255]) = true ∧
      clean_content [fooRe] (decodeReplace [102, 111, 111, 255]) ≠
        decodeReplace [102, 111, 111, 255]) ∧
    (callback [fooRe] [102, 111, 111, 255] ()).1 =
      encodeUtf8 (clean_content [fooRe] (decodeReplace [102, 111, 111, 255])) :=
  ⟨⟨by decide, by decide, by decide⟩,
    c10_amended [fooRe] [102, 111, 111, 255] () (by decide) (by decide) (by decide)⟩

end DDFilter
